import Mathlib

/-!
Verification of the AI Humaniser repository against its specification.

The development shallowly embeds, in Lean 4:
  * the frontend hook `humanise` (src/frontend/src/hooks/use-humaniser.ts),
  * the URL scraper form submit handler
    (src/frontend/src/components/url-scraper-form.tsx),
  * the vector-retrieval SQL function `match_human_content`
    (src/supabase_schema.sql),
  * the UI bindings of `MetricsDisplay` and `OutputDisplay`,
  * and, since the Python backend is not part of the source tree, a model of
    the Orchestrator / ExemplarStore written from the specification text.

JavaScript strings are embedded as `List Char`; `String.prototype.trim` is
modelled by `jsTrim`, dropping a fixed set of whitespace characters from both
ends.  Floating-point scores are embedded as rationals (`ℚ`) where the code
only compares and selects them, and as reals (`ℝ`) where genuine analysis
(cosine distance) is involved.
-/

namespace Humaniser

/-- The two stylistic modes of the application
(`'sales' | 'journalist'` in the TypeScript sources). -/
inductive Mode
  | sales
  | journalist
deriving DecidableEq, Repr

/-- Whitespace test used by `jsTrim`; a fixed set of the common JavaScript
whitespace characters (space, tab, line feed, carriage return, form feed,
vertical tab). -/
def isJsWhitespace (c : Char) : Bool :=
  c = ' ' || c = '\t' || c = '\n' || c = '\r' || c = '\x0c' || c = '\x0b'

/-- Model of `String.prototype.trim`: remove leading and trailing whitespace. -/
def jsTrim (s : List Char) : List Char :=
  ((s.dropWhile isJsWhitespace).reverse.dropWhile isJsWhitespace).reverse

/-- The `QualityMetrics` record as bound by the frontend (`MetricsDisplay` reads
`burstiness`, `lexical_diversity`, `contraction_ratio`, `word_count`,
`sentence_count`).  Modelled from the spec: the backend type of §3 carries
exactly these fields; the backend source is not in the repository tree. -/
structure QualityMetrics where
  burstiness : ℚ
  lexical_diversity : ℚ
  contraction_ratio : ℚ
  word_count : ℕ
  sentence_count : ℕ
deriving DecidableEq, Repr

/-- The upward response shape of §6, as bound by `OutputDisplay` and
`MetricsDisplay`.  Modelled from the spec: `lib/api.ts` (the declaration site
of the frontend `HumaniseResponse` type) and the backend `TransformResult`
are not in the repository tree; the field list follows the spec and the
field accesses actually performed by the UI components. -/
structure TransformResult where
  output_text : String
  quality_score : ℚ
  iterations : ℕ
  mode : Mode
  processing_time_ms : ℕ
  metrics : QualityMetrics
deriving DecidableEq, Repr

/-- State of the `useHumaniser` hook
(src/frontend/src/hooks/use-humaniser.ts, `UseHumaniserState`). -/
structure UseHumaniserState where
  inputText : List Char
  mode : Mode
  isLoading : Bool
  error : Option (List Char)
  result : Option TransformResult
deriving DecidableEq

/-- Request payload sent by the hook (`HumaniseRequest` in the hook). -/
structure HumaniseRequest where
  input_text : List Char
  mode : Mode
deriving DecidableEq

/-- Validation and dispatch phase of `humanise`
(src/frontend/src/hooks/use-humaniser.ts lines 47-77): returns the state as
updated before any awaited call, together with the request actually sent to
the backend (`none` when validation rejects the input and no external call
is made). -/
def humanise (st : UseHumaniserState) :
    UseHumaniserState × Option HumaniseRequest :=
  if (jsTrim st.inputText).isEmpty then
    ({ st with error := some "Please enter some text to humanise".toList }, none)
  else if (jsTrim st.inputText).length < 20 then
    ({ st with error := some "Text must be at least 20 characters long".toList },
     none)
  else
    ({ st with isLoading := true, error := none, result := none },
     some { input_text := st.inputText, mode := st.mode })

/-- Settling phase of `humanise` after the awaited backend call returns
(src/frontend/src/hooks/use-humaniser.ts lines 79-105): on success store the
response and clear the error, on failure store the message and clear the
result. -/
def humaniseSettle (st : UseHumaniserState)
    (outcome : Except (List Char) TransformResult) : UseHumaniserState :=
  match outcome with
  | .ok resp => { st with isLoading := false, result := some resp, error := none }
  | .error msg => { st with isLoading := false, error := some msg, result := none }

/-- Result record stored by the scraper form after a response
(src/frontend/src/components/url-scraper-form.tsx line 26). -/
structure ScrapeResult where
  success : Bool
  message : List Char
  wordCount : ℕ
  filename : List Char
deriving DecidableEq

/-- State of the URL scraper form
(src/frontend/src/components/url-scraper-form.tsx, the `useState` fields
relevant to `handleSubmit`). -/
structure ScraperState where
  url : List Char
  contentType : Mode
  description : List Char
  isLoading : Bool
  result : Option ScrapeResult
deriving DecidableEq

/-- Request payload of the scraper form (`ScrapeRequest` in the component). -/
structure ScrapeRequest where
  url : List Char
  content_type : Mode
  description : List Char
deriving DecidableEq

/-- Validation and dispatch phase of `handleSubmit`
(src/frontend/src/components/url-scraper-form.tsx lines 28-58): on a
validation failure the handler returns before any state update and no
request is sent; otherwise the loading state is entered and the request
carries the trimmed url and trimmed description. -/
def handleSubmit (st : ScraperState) : ScraperState × Option ScrapeRequest :=
  if (jsTrim st.url).isEmpty then
    (st, none)
  else if (jsTrim st.description).isEmpty ∨ (jsTrim st.description).length < 5 then
    (st, none)
  else
    ({ st with isLoading := true, result := none },
     some { url := jsTrim st.url, content_type := st.contentType,
            description := jsTrim st.description })

/-- A row of the `human_content` table (src/supabase_schema.sql lines 3-16),
restricted to the columns read by `match_human_content`; the UUID primary key
is modelled as a natural number, the pgvector embedding as a list of scalars. -/
structure HRow (α : Type) where
  id : ℕ
  content : String
  content_type : String
  topic : Option String
  embedding : List α
deriving DecidableEq

/-- A row of the result table of `match_human_content`
(src/supabase_schema.sql lines 27-33). -/
structure MatchRow (α : Type) where
  id : ℕ
  content : String
  content_type : String
  topic : Option String
  similarity : α
deriving DecidableEq

/-- The SQL function `match_human_content` (src/supabase_schema.sql lines
22-49): filter by `content_type_filter` (no filter when NULL), order by the
pgvector distance operator ascending, limit to `match_count`, and report
`1 - distance` as similarity.  The distance operator itself lives in the
pgvector extension, outside this repository, so it is a parameter `dist`;
`cosineDistance` below instantiates it. -/
def match_human_content {α : Type} [LinearOrderedField α]
    (dist : List α → List α → α) (table : List (HRow α))
    (query_embedding : List α) (match_count : ℕ)
    (content_type_filter : Option String) : List (MatchRow α) :=
  letI : DecidableRel (fun r s : HRow α =>
      dist r.embedding query_embedding ≤ dist s.embedding query_embedding) :=
    fun _ _ => inferInstance
  let filtered := table.filter fun r =>
    match content_type_filter with
    | none => true
    | some f => r.content_type == f
  let sorted := filtered.insertionSort fun r s =>
    dist r.embedding query_embedding ≤ dist s.embedding query_embedding
  (sorted.take match_count).map fun r =>
    { id := r.id, content := r.content, content_type := r.content_type,
      topic := r.topic, similarity := 1 - dist r.embedding query_embedding }

/-- Dot product of two real vectors (pairwise products, summed; extra
coordinates of the longer vector are ignored, matching equal-dimension use). -/
def dotProd (a b : List ℝ) : ℝ :=
  (List.zipWith (· * ·) a b).sum

/-- Modelled from the spec: the pgvector cosine-distance operator used in
`ORDER BY human_content.embedding <=> query_embedding`
(src/supabase_schema.sql line 46); the operator's implementation lives in the
pgvector extension, outside this repository.  Cosine distance is one minus
the cosine of the angle between the vectors. -/
noncomputable def cosineDistance (a b : List ℝ) : ℝ :=
  1 - dotProd a b / (Real.sqrt (dotProd a a) * Real.sqrt (dotProd b b))

/-- Squared Euclidean distance on rational vectors; a concrete executable
distance used to exercise `match_human_content` in witnesses. -/
def demoDist (a b : List ℚ) : ℚ :=
  (List.zipWith (fun x y => (x - y) ^ 2) a b).sum

/-- A concrete two-row `human_content` table used by witnesses. -/
def demoTable : List (HRow ℚ) :=
  [⟨1, "Look, our product just works.", "sales", some "product", [1, 0]⟩,
   ⟨2, "The council voted on Tuesday.", "journalist", some "news", [0, 1]⟩]

/-- Modelled from the spec: an `IterationRecord` of §3 (the backend
orchestrator source is not in the repository tree). -/
structure IterationRecord where
  iteration_index : ℕ
  output_text : String
  quality_score : ℚ
  metrics : QualityMetrics
deriving DecidableEq, Repr

/-- Modelled from the spec: the observable outcome of one
StyleRewriter-plus-QualityScorer attempt; `none` is a `GenerationError`
(§4.3), `some (output, score, metrics)` a scored success (§4.4). -/
abbrev GenOutcome := Option (String × ℚ × QualityMetrics)

/-- Terminal outcome of the iteration loop of §4.5: either the append-only
record sequence together with the winning record, or `PipelineError` when no
attempt ever succeeded. -/
inductive LoopResult
  | ok (records : List IterationRecord) (winner : IterationRecord)
  | pipelineError
deriving DecidableEq

/-- Modelled from the spec: the best-seen accumulator of §4.5/§9 — a strict
comparison keeps the earlier record on ties, giving the earliest-max
tie-break policy. -/
def betterRecord (a b : IterationRecord) : IterationRecord :=
  if a.quality_score < b.quality_score then b else a

/-- Modelled from the spec: the best-scoring record of a sequence, earliest
preferred on ties; `none` on an empty sequence. -/
def bestRecord : List IterationRecord → Option IterationRecord
  | [] => none
  | r :: rs => some (rs.foldl betterRecord r)

/-- Modelled from the spec: the iteration controller of §4.5.  `outcomes` is
the trace of generation attempts, one per permitted iteration; `i` is the
1-based iteration index; `acc` is the append-only record sequence.  A scored
success meeting the threshold is accepted immediately; a `GenerationError`
moves to the next iteration; on exhaustion the best prior record wins, and
with no successful record at all the whole request fails. -/
def runLoop (threshold : ℚ) :
    List GenOutcome → ℕ → List IterationRecord → LoopResult
  | [], _, acc =>
    match bestRecord acc with
    | none => .pipelineError
    | some b => .ok acc b
  | none :: rest, i, acc => runLoop threshold rest (i + 1) acc
  | some (out, score, m) :: rest, i, acc =>
    let recd : IterationRecord := ⟨i, out, score, m⟩
    if threshold ≤ score then .ok (acc ++ [recd]) recd
    else runLoop threshold rest (i + 1) (acc ++ [recd])

/-- Modelled from the spec: the Orchestrator of §4.5 — run the loop from
iteration 1 with an empty record sequence and build the `TransformResult`
from the winning record (`iterations` is the record-sequence length, §3). -/
def orchestrate (threshold : ℚ) (mode : Mode) (elapsed_ms : ℕ)
    (outcomes : List GenOutcome) : Option TransformResult :=
  match runLoop threshold outcomes 1 [] with
  | .pipelineError => none
  | .ok records winner =>
    some { output_text := winner.output_text,
           quality_score := winner.quality_score,
           iterations := records.length, mode := mode,
           processing_time_ms := elapsed_ms, metrics := winner.metrics }

/-- Modelled from the spec: an `Exemplar` of §3. -/
structure Exemplar where
  content : String
  content_type : Mode
  topic : Option String
  similarity : ℚ
deriving DecidableEq

/-- Modelled from the spec: the small built-in curated exemplar set per mode
used by the `ExemplarStore` fallback path (§4.2); never empty. -/
def fallbackExemplars : Mode → List Exemplar
  | .sales =>
    [⟨"Look. This coffee will change your mornings, full stop.",
      .sales, some "product", 1⟩]
  | .journalist =>
    [⟨"The council met on Tuesday. Nobody expected what came next.",
      .journalist, some "news", 1⟩]

/-- Modelled from the spec: `ExemplarStore.retrieve` (§4.2).  `provider` is
the external vector service's answer: `none` when unreachable, `some rows`
otherwise; an unreachable service or zero rows degrade to the built-in
fallback set. -/
def retrieve (provider : Option (List Exemplar)) (mode : Mode) :
    List Exemplar :=
  match provider with
  | none => fallbackExemplars mode
  | some [] => fallbackExemplars mode
  | some rows => rows

/-- Modelled from the spec: the full pipeline — retrieve exemplars once per
request (§4.5 step 1), then run the iteration loop over the generation
trace, which may depend on the exemplars handed to the rewriter. -/
def runPipeline (provider : Option (List Exemplar)) (mode : Mode)
    (generate : List Exemplar → List GenOutcome)
    (threshold : ℚ) (elapsed_ms : ℕ) : Option TransformResult :=
  orchestrate threshold mode elapsed_ms (generate (retrieve provider mode))

/-- Proof device: the record sequence produced by a trace in which no attempt
is ever accepted, starting at iteration index `i`. -/
def mkRecords : List GenOutcome → ℕ → List IterationRecord
  | [], _ => []
  | none :: rest, i => mkRecords rest (i + 1)
  | some (out, score, m) :: rest, i => ⟨i, out, score, m⟩ :: mkRecords rest (i + 1)

/-- Placeholder metrics for concrete orchestrator traces in witnesses. -/
def demoMetrics : QualityMetrics := ⟨0, 0, 0, 0, 0⟩

/-- The trace of the spec's exhaustion tie-break scenario: three successful
iterations scoring 0.5, 0.7, 0.7. -/
def demoOutcomes3 : List GenOutcome :=
  [some ("one", 1/2, demoMetrics), some ("two", 7/10, demoMetrics),
   some ("three", 7/10, demoMetrics)]

/-- A two-iteration trace whose best record is not the last one. -/
def demoOutcomes2 : List GenOutcome :=
  [some ("a", 7/10, demoMetrics), some ("b", 1/2, demoMetrics)]

/-- The record sequence produced by `demoOutcomes3` under threshold 0.8. -/
def demoRecords3 : List IterationRecord :=
  [⟨1, "one", 1/2, demoMetrics⟩, ⟨2, "two", 7/10, demoMetrics⟩,
   ⟨3, "three", 7/10, demoMetrics⟩]

/-- One metric row of `MetricsDisplay` (src/unnamed/part_001 lines 12-17);
the `description` display copy is omitted. -/
structure MetricItem where
  label : String
  value : ℚ
  format : String
deriving DecidableEq

/-- The metric rows bound by `MetricsDisplay` (src/unnamed/part_001 lines
20-39): the component reads `metrics.burstiness`,
`metrics.lexical_diversity` and `metrics.contraction_ratio` by name. -/
def metricItems (metrics : QualityMetrics) : List MetricItem :=
  [⟨"Burstiness", metrics.burstiness, "percentage"⟩,
   ⟨"Lexical Diversity", metrics.lexical_diversity, "percentage"⟩,
   ⟨"Contraction Ratio", metrics.contraction_ratio, "percentage"⟩]

/-- The stats panel of `MetricsDisplay` (src/unnamed/part_001 lines 105-122)
binds `metrics.word_count` and `metrics.sentence_count` by name. -/
def metricsDisplayStats (metrics : QualityMetrics) : ℕ × ℕ :=
  (metrics.word_count, metrics.sentence_count)

/-- The header of `OutputDisplay` (src/unnamed/part_000 lines 36-52) binds
`quality_score`, `iterations`, `processing_time_ms` and `mode` by name. -/
def outputDisplayHeader (result : TransformResult) : ℚ × ℕ × ℕ × Mode :=
  (result.quality_score, result.iterations, result.processing_time_ms,
   result.mode)

/-- The body of `OutputDisplay` (src/unnamed/part_000 lines 55-60) binds
`output_text` by name. -/
def outputDisplayText (result : TransformResult) : String :=
  result.output_text

end Humaniser

namespace Humaniser

theorem dropWhile_length_le (p : Char → Bool) (s : List Char) :
    (s.dropWhile p).length ≤ s.length := by
  induction s with
  | nil => simp
  | cons c cs ih =>
    by_cases h : p c
    · simp only [List.dropWhile, h]
      exact Nat.le_succ_of_le ih
    · simp [List.dropWhile, h]

theorem jsTrim_length_le (s : List Char) : (jsTrim s).length ≤ s.length := by
  unfold jsTrim
  calc ((s.dropWhile isJsWhitespace).reverse.dropWhile isJsWhitespace).reverse.length
      = ((s.dropWhile isJsWhitespace).reverse.dropWhile isJsWhitespace).length := by
        rw [List.length_reverse]
    _ ≤ (s.dropWhile isJsWhitespace).reverse.length :=
        dropWhile_length_le _ _
    _ = (s.dropWhile isJsWhitespace).length := by rw [List.length_reverse]
    _ ≤ s.length := dropWhile_length_le _ _

/-- C1: an empty or under-20-character input is rejected by `humanise` with a
validation error and no backend request (hence zero invocations of any
retrieval, generation or scoring collaborator). -/
theorem C1_short_input_validation_error (st : UseHumaniserState)
    (h : st.inputText = [] ∨ st.inputText.length < 20) :
    (humanise st).2 = none ∧ (humanise st).1.error ≠ none := by
  have htrim : (jsTrim st.inputText).length < 20 := by
    rcases h with h | h
    · simp [h, jsTrim]
    · exact Nat.lt_of_le_of_lt (jsTrim_length_le st.inputText) h
  unfold humanise
  by_cases he : (jsTrim st.inputText).isEmpty
  · simp [he]
  · simp [he, htrim]

/-- Witness for C1 at a concrete 5-character input. -/
theorem C1_short_input_validation_error_witness :
    (humanise ⟨"hello".toList, Mode.sales, false, none, none⟩).2 = none ∧
      (humanise ⟨"hello".toList, Mode.sales, false, none, none⟩).1.error ≠ none :=
  C1_short_input_validation_error ⟨"hello".toList, Mode.sales, false, none, none⟩
    (Or.inr (by decide))

/-- C8: a backend request is issued only when the trimmed input has at least
20 characters, and the payload carries the original untrimmed text. -/
theorem C8_request_trimmed_precondition (st : UseHumaniserState)
    (req : HumaniseRequest) (st' : UseHumaniserState)
    (h : humanise st = (st', some req)) :
    20 ≤ (jsTrim st.inputText).length ∧ req.input_text = st.inputText := by
  unfold humanise at h
  by_cases he : (jsTrim st.inputText).isEmpty
  · simp [he] at h
  · by_cases hl : (jsTrim st.inputText).length < 20
    · simp [he, hl] at h
    · refine ⟨Nat.le_of_not_lt hl, ?_⟩
      simp [he, hl] at h
      obtain ⟨-, h2⟩ := h
      rw [← h2]

/-- Witness for C8: a whitespace-padded input whose trimmed form has exactly
20 characters is sent untrimmed. -/
theorem C8_request_trimmed_precondition_witness :
    20 ≤ (jsTrim ("  ab ab ab ab ab ab ab ".toList)).length ∧
      (HumaniseRequest.mk "  ab ab ab ab ab ab ab ".toList Mode.sales).input_text
        = "  ab ab ab ab ab ab ab ".toList :=
  C8_request_trimmed_precondition
    ⟨"  ab ab ab ab ab ab ab ".toList, Mode.sales, false, none, none⟩
    (HumaniseRequest.mk "  ab ab ab ab ab ab ab ".toList Mode.sales)
    ⟨"  ab ab ab ab ab ab ab ".toList, Mode.sales, true, none, none⟩
    (by decide)

/-- C9: after a validated request settles, the hook state holds exactly one of
a non-null result (error null) or a non-null error (result null). -/
theorem C9_result_error_exclusive (st st' : UseHumaniserState)
    (req : HumaniseRequest) (outcome : Except (List Char) TransformResult)
    (_h : humanise st = (st', some req)) :
    ((humaniseSettle st' outcome).result ≠ none ∧
        (humaniseSettle st' outcome).error = none) ∨
      ((humaniseSettle st' outcome).error ≠ none ∧
        (humaniseSettle st' outcome).result = none) := by
  cases outcome with
  | ok resp => exact Or.inl ⟨by simp [humaniseSettle], by simp [humaniseSettle]⟩
  | error msg => exact Or.inr ⟨by simp [humaniseSettle], by simp [humaniseSettle]⟩

/-- Witness for C9 at a concrete request and failure outcome. -/
theorem C9_result_error_exclusive_witness :
    ((humaniseSettle ⟨"this text is long enough now".toList, Mode.sales, true,
          none, none⟩ (.error "boom".toList)).result ≠ none ∧
        (humaniseSettle ⟨"this text is long enough now".toList, Mode.sales, true,
          none, none⟩ (.error "boom".toList)).error = none) ∨
      ((humaniseSettle ⟨"this text is long enough now".toList, Mode.sales, true,
          none, none⟩ (.error "boom".toList)).error ≠ none ∧
        (humaniseSettle ⟨"this text is long enough now".toList, Mode.sales, true,
          none, none⟩ (.error "boom".toList)).result = none) :=
  C9_result_error_exclusive
    ⟨"this text is long enough now".toList, Mode.sales, false, none, none⟩
    ⟨"this text is long enough now".toList, Mode.sales, true, none, none⟩
    (HumaniseRequest.mk "this text is long enough now".toList Mode.sales)
    (.error "boom".toList)
    (by decide)

/-- C10: a scrape request is sent only when the trimmed URL is non-empty and
the trimmed description has at least 5 characters, with the trimmed values in
the payload; when validation fails nothing is sent and the form state is
unchanged. -/
theorem C10_scraper_validation (st st' : ScraperState) (req : ScrapeRequest)
    (h : handleSubmit st = (st', some req)) :
    jsTrim st.url ≠ [] ∧ 5 ≤ (jsTrim st.description).length ∧
      req.url = jsTrim st.url ∧ req.description = jsTrim st.description ∧
      req.content_type = st.contentType ∧
      ∀ s : ScraperState,
        (jsTrim s.url = [] ∨ (jsTrim s.description).length < 5) →
          handleSubmit s = (s, none) := by
  have hgen : ∀ s : ScraperState,
      (jsTrim s.url = [] ∨ (jsTrim s.description).length < 5) →
        handleSubmit s = (s, none) := by
    intro s hs
    unfold handleSubmit
    rcases hs with hs | hs
    · simp [hs]
    · by_cases hu : (jsTrim s.url).isEmpty
      · simp [hu]
      · rw [if_neg (by simp [hu]), if_pos (Or.inr hs)]
  unfold handleSubmit at h
  by_cases hu : (jsTrim st.url).isEmpty
  · simp [hu] at h
  · by_cases hd : (jsTrim st.description).isEmpty ∨
        (jsTrim st.description).length < 5
    · rw [if_neg (by simp [hu]), if_pos hd] at h
      simp at h
    · rw [if_neg (by simp [hu]), if_neg hd] at h
      push_neg at hd
      have hreq : req = ScrapeRequest.mk (jsTrim st.url) st.contentType
          (jsTrim st.description) := by
        have := (Prod.mk.injEq .. ▸ h)
        exact Option.some.inj this.2 |>.symm
      refine ⟨by simpa using hu, hd.2, ?_, ?_, ?_, hgen⟩
      · rw [hreq]
      · rw [hreq]
      · rw [hreq]

/-- Witness for C10 at a concrete valid submission. -/
theorem C10_scraper_validation_witness :
    jsTrim (" https://example.com ".toList) ≠ [] ∧
      5 ≤ (jsTrim " a food article ".toList).length ∧
      (ScrapeRequest.mk (jsTrim " https://example.com ".toList) Mode.journalist
          (jsTrim " a food article ".toList)).url
        = jsTrim " https://example.com ".toList ∧
      (ScrapeRequest.mk (jsTrim " https://example.com ".toList) Mode.journalist
          (jsTrim " a food article ".toList)).description
        = jsTrim " a food article ".toList ∧
      (ScrapeRequest.mk (jsTrim " https://example.com ".toList) Mode.journalist
          (jsTrim " a food article ".toList)).content_type = Mode.journalist ∧
      ∀ s : ScraperState,
        (jsTrim s.url = [] ∨ (jsTrim s.description).length < 5) →
          handleSubmit s = (s, none) :=
  C10_scraper_validation
    ⟨" https://example.com ".toList, Mode.journalist, " a food article ".toList,
      false, none⟩
    ⟨" https://example.com ".toList, Mode.journalist, " a food article ".toList,
      true, none⟩
    (ScrapeRequest.mk (jsTrim " https://example.com ".toList) Mode.journalist
      (jsTrim " a food article ".toList))
    (by decide)

/-- C2: for any distance operator, table, query embedding, requested count k
and mode filter, `match_human_content` returns at most k rows, sorted by
similarity descending, all of the requested content type. -/
theorem C2_retrieval_contract {α : Type} [LinearOrderedField α]
    (dist : List α → List α → α) (table : List (HRow α))
    (q : List α) (k : ℕ) (mode : String) :
    (match_human_content dist table q k (some mode)).length ≤ k ∧
      (match_human_content dist table q k (some mode)).Pairwise
        (fun r s => s.similarity ≤ r.similarity) ∧
      ∀ r ∈ match_human_content dist table q k (some mode),
        r.content_type = mode := by
  letI : DecidableRel (fun r s : HRow α =>
      dist r.embedding q ≤ dist s.embedding q) := fun _ _ => inferInstance
  haveI htot : IsTotal (HRow α)
      (fun r s => dist r.embedding q ≤ dist s.embedding q) :=
    ⟨fun a b => le_total _ _⟩
  haveI htrans : IsTrans (HRow α)
      (fun r s => dist r.embedding q ≤ dist s.embedding q) :=
    ⟨fun _ _ _ hab hbc => le_trans hab hbc⟩
  unfold match_human_content
  refine ⟨?_, ?_, ?_⟩
  · rw [List.length_map, List.length_take]
    exact min_le_left _ _
  · rw [List.pairwise_map]
    have hsorted := List.sorted_insertionSort
      (fun r s : HRow α => dist r.embedding q ≤ dist s.embedding q)
      (table.filter fun r => r.content_type == mode)
    have htake := hsorted.sublist (List.take_sublist k _)
    exact htake.imp fun h => by simpa using sub_le_sub_left h 1
  · intro r hr
    obtain ⟨x, hx, hxr⟩ := List.mem_map.1 hr
    have hx' : x ∈ (table.filter
        fun r => r.content_type == mode).insertionSort
        (fun r s => dist r.embedding q ≤ dist s.embedding q) :=
      List.mem_of_mem_take hx
    rw [List.mem_insertionSort] at hx'
    have := (List.mem_filter.1 hx').2
    have hct : x.content_type = mode := by simpa using this
    rw [← hxr]
    exact hct

/-- Witness for C2 at a concrete table and squared-Euclidean distance: the
single returned row has the requested content type. -/
theorem C2_retrieval_contract_witness :
    (MatchRow.mk 1 "Look, our product just works." "sales" (some "product")
      (1 - demoDist [1, 0] [1, 0])).content_type = "sales" :=
  (C2_retrieval_contract demoDist demoTable [1, 0] 1 "sales").2.2 _
    (by simp [match_human_content, demoTable, List.insertionSort,
      List.orderedInsert, List.filter])

theorem dotProd_cons (x y : ℝ) (xs ys : List ℝ) :
    dotProd (x :: xs) (y :: ys) = x * y + dotProd xs ys := by
  simp [dotProd]

theorem dotProd_self_nonneg (a : List ℝ) : 0 ≤ dotProd a a := by
  induction a with
  | nil => simp [dotProd]
  | cons x xs ih =>
    rw [dotProd_cons]
    exact add_nonneg (mul_self_nonneg x) ih

theorem dotProd_sq_le (a b : List ℝ) :
    dotProd a b ^ 2 ≤ dotProd a a * dotProd b b := by
  induction a generalizing b with
  | nil => simp [dotProd]
  | cons x xs ih =>
    cases b with
    | nil => simp [dotProd]
    | cons y ys =>
      have hS := ih ys
      have hA := dotProd_self_nonneg xs
      have hB := dotProd_self_nonneg ys
      rw [dotProd_cons, dotProd_cons, dotProd_cons]
      rcases eq_or_lt_of_le hA with hA0 | hApos
      · have hS0 : dotProd xs ys = 0 := by
          have h1 : dotProd xs ys ^ 2 ≤ 0 := by
            calc dotProd xs ys ^ 2 ≤ dotProd xs xs * dotProd ys ys := hS
              _ = 0 := by rw [← hA0, zero_mul]
          exact pow_eq_zero_iff (n := 2) (by norm_num) |>.1
            (le_antisymm h1 (sq_nonneg _))
        rw [hS0, ← hA0]
        nlinarith [mul_nonneg (mul_self_nonneg x) hB]
      · nlinarith [sq_nonneg (x * dotProd xs ys - dotProd xs xs * y),
          mul_nonneg (add_nonneg (sq_nonneg x) hA) (sub_nonneg.2 hS)]

theorem abs_dotProd_le (a b : List ℝ) :
    |dotProd a b| ≤ Real.sqrt (dotProd a a) * Real.sqrt (dotProd b b) := by
  have h1 : |dotProd a b| = Real.sqrt (dotProd a b ^ 2) :=
    (Real.sqrt_sq_eq_abs _).symm
  rw [h1, ← Real.sqrt_mul (dotProd_self_nonneg a)]
  exact Real.sqrt_le_sqrt (dotProd_sq_le a b)

theorem one_sub_cosineDistance_bounds (a b : List ℝ) :
    -1 ≤ 1 - cosineDistance a b ∧ 1 - cosineDistance a b ≤ 1 := by
  have hval : 1 - cosineDistance a b
      = dotProd a b / (Real.sqrt (dotProd a a) * Real.sqrt (dotProd b b)) := by
    unfold cosineDistance
    ring
  rw [hval]
  have hden : 0 ≤ Real.sqrt (dotProd a a) * Real.sqrt (dotProd b b) :=
    mul_nonneg (Real.sqrt_nonneg _) (Real.sqrt_nonneg _)
  rcases eq_or_lt_of_le hden with h0 | hpos
  · rw [← h0, div_zero]
    norm_num
  · have habs : |dotProd a b / (Real.sqrt (dotProd a a)
        * Real.sqrt (dotProd b b))| ≤ 1 := by
      rw [abs_div, abs_of_pos hpos]
      exact (div_le_one hpos).2 (abs_dotProd_le a b)
    exact abs_le.1 habs

/-- C3 counterexample: for opposite embeddings the similarity reported by
`match_human_content` is `-1`, which is negative, refuting `∈ [0,1]`. -/
theorem C3_similarity_counterexample :
    ∃ r ∈ match_human_content cosineDistance
        [⟨1, "c", "sales", none, [1]⟩] [-1] 1 none, r.similarity < 0 := by
  refine ⟨⟨1, "c", "sales", none, 1 - cosineDistance [1] [-1]⟩, ?_, ?_⟩
  · simp [match_human_content, List.insertionSort, List.orderedInsert,
      List.filter]
  · show 1 - cosineDistance [1] [-1] < 0
    have hc : cosineDistance [1] [-1] = 2 := by
      unfold cosineDistance dotProd
      norm_num
    rw [hc]
    norm_num

/-- C3 (amended): every similarity reported by `match_human_content` with the
cosine distance lies in `[-1, 1]` (not `[0, 1]`: opposite embeddings give a
negative similarity). -/
theorem C3_similarity_range (table : List (HRow ℝ)) (q : List ℝ) (k : ℕ)
    (filt : Option String) (r : MatchRow ℝ)
    (h : r ∈ match_human_content cosineDistance table q k filt) :
    -1 ≤ r.similarity ∧ r.similarity ≤ 1 := by
  unfold match_human_content at h
  obtain ⟨x, _, hxr⟩ := List.mem_map.1 h
  have hsim : r.similarity = 1 - cosineDistance x.embedding q := by
    rw [← hxr]
  rw [hsim]
  exact one_sub_cosineDistance_bounds x.embedding q

theorem foldl_betterRecord_spec (rs : List IterationRecord)
    (r : IterationRecord) :
    ∃ pre post, r :: rs = pre ++ (rs.foldl betterRecord r) :: post ∧
      (∀ x ∈ pre,
        x.quality_score < (rs.foldl betterRecord r).quality_score) ∧
      (∀ x ∈ r :: rs,
        x.quality_score ≤ (rs.foldl betterRecord r).quality_score) := by
  induction rs generalizing r with
  | nil =>
    exact ⟨[], [], rfl, by simp, by simp⟩
  | cons s rs' ih =>
    have hstep : (s :: rs').foldl betterRecord r
        = rs'.foldl betterRecord (betterRecord r s) := rfl
    by_cases h : r.quality_score < s.quality_score
    · have hbr : betterRecord r s = s := by simp [betterRecord, h]
      obtain ⟨pre, post, hdec, hpre, hall⟩ := ih s
      refine ⟨r :: pre, post, ?_, ?_, ?_⟩
      · rw [hstep, hbr, List.cons_append, ← hdec]
      · intro x hx
        rw [hstep, hbr]
        rcases List.mem_cons.1 hx with hx | hx
        · subst hx
          exact lt_of_lt_of_le h (hall s (List.mem_cons_self s rs'))
        · exact hpre x hx
      · intro x hx
        rw [hstep, hbr]
        rcases List.mem_cons.1 hx with hx | hx
        · subst hx
          exact le_of_lt (lt_of_lt_of_le h (hall s (List.mem_cons_self s rs')))
        · exact hall x hx
    · have hbr : betterRecord r s = r := by simp [betterRecord, h]
      have hsr : s.quality_score ≤ r.quality_score := le_of_not_lt h
      obtain ⟨pre, post, hdec, hpre, hall⟩ := ih r
      cases pre with
      | nil =>
        have hb : rs'.foldl betterRecord r = r := by
          have := hdec
          simp only [List.nil_append] at this
          exact (List.cons.injEq .. ▸ this).1.symm
        refine ⟨[], s :: rs', ?_, by simp, ?_⟩
        · rw [hstep, hbr, hb]
          simp
        · intro x hx
          rw [hstep, hbr, hb]
          rcases List.mem_cons.1 hx with hx | hx
          · subst hx; exact le_refl _
          · rcases List.mem_cons.1 hx with hx | hx
            · subst hx; exact hsr
            · have := hall x (List.mem_cons_of_mem r hx)
              rw [hb] at this
              exact this
      | cons p pre'' =>
        have hp : p = r ∧ rs' = pre'' ++ (rs'.foldl betterRecord r) :: post := by
          have := hdec
          rw [List.cons_append] at this
          exact ⟨(List.cons.injEq .. ▸ this).1.symm,
            (List.cons.injEq .. ▸ this).2⟩
        refine ⟨r :: s :: pre'', post, ?_, ?_, ?_⟩
        · rw [hstep, hbr, List.cons_append, List.cons_append, ← hp.2]
        · intro x hx
          rw [hstep, hbr]
          have hrlt : r.quality_score < (rs'.foldl betterRecord r).quality_score := by
            have := hpre p (List.mem_cons_self p pre'')
            rw [hp.1] at this
            exact this
          rcases List.mem_cons.1 hx with hx | hx
          · subst hx; exact hrlt
          · rcases List.mem_cons.1 hx with hx | hx
            · subst hx; exact lt_of_le_of_lt hsr hrlt
            · exact hpre x (List.mem_cons_of_mem p hx)
        · intro x hx
          rw [hstep, hbr]
          rcases List.mem_cons.1 hx with hx | hx
          · rw [hx]; exact hall r (List.mem_cons_self r rs')
          · rcases List.mem_cons.1 hx with hx | hx
            · rw [hx]
              exact le_trans hsr (hall r (List.mem_cons_self r rs'))
            · exact hall x (List.mem_cons_of_mem r hx)

theorem bestRecord_spec (l : List IterationRecord) (b : IterationRecord)
    (h : bestRecord l = some b) :
    ∃ pre post, l = pre ++ b :: post ∧
      (∀ x ∈ pre, x.quality_score < b.quality_score) ∧
      (∀ x ∈ l, x.quality_score ≤ b.quality_score) := by
  cases l with
  | nil => simp [bestRecord] at h
  | cons r rs =>
    have hb : rs.foldl betterRecord r = b := by
      simpa [bestRecord] using h
    obtain ⟨pre, post, hdec, hpre, hall⟩ := foldl_betterRecord_spec rs r
    rw [hb] at hdec hpre hall
    exact ⟨pre, post, hdec, hpre, hall⟩

theorem runLoop_noaccept (threshold : ℚ) (outcomes : List GenOutcome) :
    ∀ (i : ℕ) (acc : List IterationRecord),
      (∀ o ∈ outcomes, ∀ out sc m, o = some (out, sc, m) → sc < threshold) →
      runLoop threshold outcomes i acc =
        match bestRecord (acc ++ mkRecords outcomes i) with
        | none => .pipelineError
        | some b => .ok (acc ++ mkRecords outcomes i) b := by
  induction outcomes with
  | nil => intro i acc _; simp [runLoop, mkRecords]
  | cons o rest ih =>
    intro i acc hno
    cases o with
    | none =>
      have := ih (i + 1) acc (fun o ho => hno o (List.mem_cons_of_mem _ ho))
      simpa [runLoop, mkRecords] using this
    | some triple =>
      obtain ⟨out, score, m⟩ := triple
      have hlt : score < threshold :=
        hno _ (List.mem_cons_self _ _) out score m rfl
      have hnle : ¬ threshold ≤ score := not_le.2 hlt
      have := ih (i + 1) (acc ++ [⟨i, out, score, m⟩])
        (fun o ho => hno o (List.mem_cons_of_mem _ ho))
      simp only [runLoop, hnle, if_false, mkRecords]
      rw [this, List.append_assoc]
      rfl

theorem mkRecords_index_ge (outcomes : List GenOutcome) :
    ∀ i, ∀ r ∈ mkRecords outcomes i, i ≤ r.iteration_index := by
  induction outcomes with
  | nil => intro i r hr; simp [mkRecords] at hr
  | cons o rest ih =>
    intro i r hr
    cases o with
    | none =>
      have := ih (i + 1) r (by simpa [mkRecords] using hr)
      omega
    | some triple =>
      obtain ⟨out, score, m⟩ := triple
      rw [mkRecords] at hr
      rcases List.mem_cons.1 hr with hr | hr
      · subst hr; exact le_refl _
      · have := ih (i + 1) r hr
        omega

theorem mkRecords_index_sorted (outcomes : List GenOutcome) :
    ∀ i, (mkRecords outcomes i).Pairwise
      (fun a b => a.iteration_index < b.iteration_index) := by
  induction outcomes with
  | nil => intro i; simp [mkRecords]
  | cons o rest ih =>
    intro i
    cases o with
    | none => simpa [mkRecords] using ih (i + 1)
    | some triple =>
      obtain ⟨out, score, m⟩ := triple
      rw [mkRecords]
      refine List.Pairwise.cons ?_ (ih (i + 1))
      intro r hr
      have := mkRecords_index_ge rest (i + 1) r hr
      show i < r.iteration_index
      omega

theorem runLoop_ok_ne_nil (threshold : ℚ) (outcomes : List GenOutcome) :
    ∀ (i : ℕ) (acc : List IterationRecord) (records : List IterationRecord)
      (w : IterationRecord),
      runLoop threshold outcomes i acc = .ok records w → records ≠ [] := by
  induction outcomes with
  | nil =>
    intro i acc records w h
    rw [runLoop] at h
    cases hacc : bestRecord acc with
    | none => rw [hacc] at h; exact absurd h (by simp)
    | some b =>
      rw [hacc] at h
      cases acc with
      | nil => simp [bestRecord] at hacc
      | cons r rs =>
        have : records = r :: rs := ((LoopResult.ok.injEq .. ▸ h).1).symm
        simp [this]
  | cons o rest ih =>
    intro i acc records w h
    cases o with
    | none => exact ih (i + 1) acc records w h
    | some triple =>
      obtain ⟨out, score, m⟩ := triple
      rw [runLoop] at h
      by_cases hacc : threshold ≤ score
      · rw [if_pos hacc] at h
        have : records = acc ++ [⟨i, out, score, m⟩] :=
          ((LoopResult.ok.injEq .. ▸ h).1).symm
        simp [this]
      · rw [if_neg hacc] at h
        exact ih (i + 1) _ records w h

theorem runLoop_ok_length (threshold : ℚ) (outcomes : List GenOutcome) :
    ∀ (i : ℕ) (acc : List IterationRecord) (records : List IterationRecord)
      (w : IterationRecord),
      runLoop threshold outcomes i acc = .ok records w →
      records.length ≤ acc.length + outcomes.length := by
  induction outcomes with
  | nil =>
    intro i acc records w h
    rw [runLoop] at h
    cases hacc : bestRecord acc with
    | none => rw [hacc] at h; exact absurd h (by simp)
    | some b =>
      rw [hacc] at h
      have : records = acc := ((LoopResult.ok.injEq .. ▸ h).1).symm
      simp [this]
  | cons o rest ih =>
    intro i acc records w h
    cases o with
    | none =>
      have := ih (i + 1) acc records w h
      simp only [List.length_cons]
      omega
    | some triple =>
      obtain ⟨out, score, m⟩ := triple
      rw [runLoop] at h
      by_cases hacc : threshold ≤ score
      · rw [if_pos hacc] at h
        have hrec : records = acc ++ [⟨i, out, score, m⟩] :=
          ((LoopResult.ok.injEq .. ▸ h).1).symm
        rw [hrec]
        simp only [List.length_append, List.length_cons, List.length_nil]
        omega
      · rw [if_neg hacc] at h
        have := ih (i + 1) _ records w h
        simp only [List.length_append, List.length_cons, List.length_nil]
          at this ⊢
        omega

theorem bestRecord_mem (l : List IterationRecord) (b : IterationRecord)
    (h : bestRecord l = some b) : b ∈ l := by
  obtain ⟨pre, post, hdec, -, -⟩ := bestRecord_spec l b h
  rw [hdec]
  exact List.mem_append.2 (Or.inr (List.mem_cons_self _ _))

theorem runLoop_ok_last (threshold : ℚ) (outcomes : List GenOutcome) :
    ∀ (i : ℕ) (acc : List IterationRecord) (records : List IterationRecord)
      (w : IterationRecord),
      (∀ r ∈ acc, r.quality_score < threshold) →
      runLoop threshold outcomes i acc = .ok records w →
      threshold ≤ w.quality_score → records.getLast? = some w := by
  induction outcomes with
  | nil =>
    intro i acc records w hacc h hw
    rw [runLoop] at h
    cases hb : bestRecord acc with
    | none => rw [hb] at h; exact absurd h (by simp)
    | some b =>
      rw [hb] at h
      have hrec : records = acc ∧ w = b := by
        constructor
        · exact ((LoopResult.ok.injEq .. ▸ h).1).symm
        · exact ((LoopResult.ok.injEq .. ▸ h).2).symm
      have hbmem : b ∈ acc := bestRecord_mem acc b hb
      have : w.quality_score < threshold := by
        rw [hrec.2]
        exact hacc b hbmem
      exact absurd hw (not_le.2 this)
  | cons o rest ih =>
    intro i acc records w hacc h hw
    cases o with
    | none => exact ih (i + 1) acc records w hacc h hw
    | some triple =>
      obtain ⟨out, score, m⟩ := triple
      rw [runLoop] at h
      by_cases hsc : threshold ≤ score
      · rw [if_pos hsc] at h
        have hrec : records = acc ++ [⟨i, out, score, m⟩] ∧
            w = (⟨i, out, score, m⟩ : IterationRecord) := by
          constructor
          · exact ((LoopResult.ok.injEq .. ▸ h).1).symm
          · exact ((LoopResult.ok.injEq .. ▸ h).2).symm
        rw [hrec.1, hrec.2, List.getLast?_concat]
      · rw [if_neg hsc] at h
        refine ih (i + 1) _ records w ?_ h hw
        intro r hr
        rcases List.mem_append.1 hr with hr | hr
        · exact hacc r hr
        · have : r = (⟨i, out, score, m⟩ : IterationRecord) := by
            simpa using hr
          rw [this]
          exact not_le.1 hsc

theorem runLoop_pipelineError (threshold : ℚ) (outcomes : List GenOutcome) :
    ∀ (i : ℕ) (acc : List IterationRecord),
      runLoop threshold outcomes i acc = .pipelineError →
      acc = [] ∧ ∀ o ∈ outcomes, o = none := by
  induction outcomes with
  | nil =>
    intro i acc h
    rw [runLoop] at h
    cases hb : bestRecord acc with
    | none =>
      refine ⟨?_, by simp⟩
      cases acc with
      | nil => rfl
      | cons r rs => simp [bestRecord] at hb
    | some b => rw [hb] at h; exact absurd h (by simp)
  | cons o rest ih =>
    intro i acc h
    cases o with
    | none =>
      obtain ⟨hacc, hrest⟩ := ih (i + 1) acc h
      refine ⟨hacc, ?_⟩
      intro o ho
      rcases List.mem_cons.1 ho with ho | ho
      · exact ho
      · exact hrest o ho
    | some triple =>
      obtain ⟨out, score, m⟩ := triple
      rw [runLoop] at h
      by_cases hsc : threshold ≤ score
      · rw [if_pos hsc] at h
        exact absurd h (by simp)
      · rw [if_neg hsc] at h
        obtain ⟨hacc, -⟩ := ih (i + 1) _ h
        exact absurd hacc (by simp)

/-- Witness for the amended C3 at a concrete one-row table. -/
theorem C3_similarity_range_witness :
    -1 ≤ (MatchRow.mk 1 "c" "sales" none
        (1 - cosineDistance [1] [-1])).similarity ∧
      (MatchRow.mk 1 "c" "sales" none
        (1 - cosineDistance [1] [-1])).similarity ≤ 1 :=
  C3_similarity_range [⟨1, "c", "sales", none, [1]⟩] [-1] 1 none _
    (by simp [match_human_content, List.insertionSort, List.orderedInsert,
      List.filter])

/-- C4: when every iteration scores below the threshold, the loop returns the
record with the highest quality score, earliest on ties; in particular the
scenario with scores [0.5, 0.7, 0.7] under threshold 0.8 reports the
iteration-2 output with iterations = 3. -/
theorem C4_exhaustion_earliest_max :
    (∀ (threshold : ℚ) (outcomes : List GenOutcome)
        (records : List IterationRecord) (winner : IterationRecord),
        (∀ o ∈ outcomes, ∀ out sc m, o = some (out, sc, m) → sc < threshold) →
        runLoop threshold outcomes 1 [] = .ok records winner →
        winner ∈ records ∧
          (∀ r ∈ records, r.quality_score ≤ winner.quality_score) ∧
          (∀ r ∈ records, r.quality_score = winner.quality_score →
            winner.iteration_index ≤ r.iteration_index)) ∧
      ∃ res, orchestrate (4/5) Mode.sales 0 demoOutcomes3 = some res ∧
        res.output_text = "two" ∧ res.iterations = 3 := by
  constructor
  · intro threshold outcomes records winner hno hrun
    rw [runLoop_noaccept threshold outcomes 1 [] hno] at hrun
    cases hb : bestRecord ([] ++ mkRecords outcomes 1) with
    | none => rw [hb] at hrun; exact absurd hrun (by simp)
    | some b =>
      rw [hb] at hrun
      have hrecords : records = mkRecords outcomes 1 :=
        ((LoopResult.ok.injEq .. ▸ hrun).1).symm
      have hwinner : winner = b := ((LoopResult.ok.injEq .. ▸ hrun).2).symm
      obtain ⟨pre, post, hdec, hpre, hall⟩ :=
        bestRecord_spec _ b hb
      subst hwinner
      have hsorted : records.Pairwise
          (fun a c => a.iteration_index < c.iteration_index) := by
        rw [hrecords]
        exact mkRecords_index_sorted outcomes 1
      have hdec' : records = pre ++ winner :: post := by
        rw [hrecords]
        simpa using hdec
      refine ⟨?_, ?_, ?_⟩
      · rw [hdec']
        exact List.mem_append.2 (Or.inr (List.mem_cons_self _ _))
      · intro r hr
        rw [hrecords] at hr
        exact hall r (List.mem_append.2 (Or.inr hr))
      · intro r hr heq
        rw [hdec'] at hr hsorted
        rcases List.mem_append.1 hr with hr | hr
        · exact absurd heq (ne_of_lt (hpre r hr))
        · rcases List.mem_cons.1 hr with hr | hr
          · rw [hr]
          · have hrel := (List.pairwise_append.1 hsorted).2.1
            exact le_of_lt ((List.pairwise_cons.1 hrel).1 r hr)
  · refine ⟨⟨"two", 7/10, 3, Mode.sales, 0, demoMetrics⟩, ?_, rfl, rfl⟩
    norm_num [orchestrate, runLoop, demoOutcomes3, bestRecord, betterRecord]

/-- Witness for the general clause of C4 at the spec's concrete scenario. -/
theorem C4_exhaustion_earliest_max_witness :
    (⟨2, "two", 7/10, demoMetrics⟩ : IterationRecord) ∈ demoRecords3 ∧
      (∀ r ∈ demoRecords3, r.quality_score ≤
        (⟨2, "two", 7/10, demoMetrics⟩ : IterationRecord).quality_score) ∧
      (∀ r ∈ demoRecords3, r.quality_score =
          (⟨2, "two", 7/10, demoMetrics⟩ : IterationRecord).quality_score →
        (⟨2, "two", 7/10, demoMetrics⟩ : IterationRecord).iteration_index ≤
          r.iteration_index) :=
  C4_exhaustion_earliest_max.1 (4/5) demoOutcomes3 demoRecords3
    ⟨2, "two", 7/10, demoMetrics⟩
    (by
      intro o ho out sc m hE
      simp only [demoOutcomes3, List.mem_cons, List.not_mem_nil,
        or_false] at ho
      rcases ho with rfl | rfl | rfl <;>
        (cases Option.some.inj hE; norm_num))
    (by norm_num [runLoop, demoOutcomes3, demoRecords3, bestRecord,
      betterRecord])

/-- C5 counterexample: with successful scores [0.7, 0.5] under threshold 0.8
the result's quality score is 0.7, the best seen, while the last iteration
record scores 0.5 — so the result's score differs from the last record's. -/
theorem C5_last_record_counterexample :
    orchestrate (4/5) Mode.sales 0 demoOutcomes2 =
        some ⟨"a", 7/10, 2, Mode.sales, 0, demoMetrics⟩ ∧
      runLoop (4/5) demoOutcomes2 1 [] =
        .ok [⟨1, "a", 7/10, demoMetrics⟩, ⟨2, "b", 1/2, demoMetrics⟩]
          ⟨1, "a", 7/10, demoMetrics⟩ ∧
      ([⟨1, "a", 7/10, demoMetrics⟩, ⟨2, "b", 1/2, demoMetrics⟩]
          : List IterationRecord).getLast?.map (fun r => r.quality_score)
        = some (1/2) ∧
      (7/10 : ℚ) ≠ 1/2 := by
  refine ⟨?_, ?_, ?_, by norm_num⟩
  · norm_num [orchestrate, runLoop, demoOutcomes2, bestRecord, betterRecord]
  · norm_num [runLoop, demoOutcomes2, bestRecord, betterRecord]
  · simp

/-- C5 (amended): for every completed request, `iterations` equals the length
of the record sequence, `1 ≤ iterations ≤ max_iterations`, and the result's
quality score is the winning record's score — which is the last record's
score whenever the threshold was met (Accepted), though not necessarily on
exhaustion. -/
theorem C5_result_invariants (threshold : ℚ) (mode : Mode) (t : ℕ)
    (outcomes : List GenOutcome) (maxIter : ℕ) (res : TransformResult)
    (hlen : outcomes.length = maxIter)
    (h : orchestrate threshold mode t outcomes = some res) :
    ∃ records winner, runLoop threshold outcomes 1 [] = .ok records winner ∧
      res.iterations = records.length ∧
      res.quality_score = winner.quality_score ∧
      1 ≤ res.iterations ∧ res.iterations ≤ maxIter ∧
      (threshold ≤ res.quality_score → records.getLast? = some winner) := by
  unfold orchestrate at h
  cases hrun : runLoop threshold outcomes 1 [] with
  | pipelineError => rw [hrun] at h; exact absurd h (by simp)
  | ok records winner =>
    rw [hrun] at h
    have hres : res = TransformResult.mk winner.output_text
        winner.quality_score records.length mode t winner.metrics :=
      (Option.some.inj h).symm
    refine ⟨records, winner, rfl, ?_, ?_, ?_, ?_, ?_⟩
    · rw [hres]
    · rw [hres]
    · rw [hres]
      show 1 ≤ records.length
      have hne := runLoop_ok_ne_nil threshold outcomes 1 [] records winner hrun
      exact Nat.succ_le_of_lt (List.length_pos.2 hne)
    · rw [hres]
      show records.length ≤ maxIter
      have := runLoop_ok_length threshold outcomes 1 [] records winner hrun
      simpa [hlen] using this
    · rw [hres]
      intro hw
      exact runLoop_ok_last threshold outcomes 1 [] records winner
        (by simp) hrun hw

/-- Witness for the amended C5 at the concrete two-iteration trace. -/
theorem C5_result_invariants_witness :
    ∃ records winner,
      runLoop (4/5) demoOutcomes2 1 [] = .ok records winner ∧
      (⟨"a", 7/10, 2, Mode.sales, 0, demoMetrics⟩
          : TransformResult).iterations = records.length ∧
      (⟨"a", 7/10, 2, Mode.sales, 0, demoMetrics⟩
          : TransformResult).quality_score = winner.quality_score ∧
      1 ≤ (⟨"a", 7/10, 2, Mode.sales, 0, demoMetrics⟩
          : TransformResult).iterations ∧
      (⟨"a", 7/10, 2, Mode.sales, 0, demoMetrics⟩
          : TransformResult).iterations ≤ 2 ∧
      ((4/5 : ℚ) ≤ (⟨"a", 7/10, 2, Mode.sales, 0, demoMetrics⟩
          : TransformResult).quality_score →
        records.getLast? = some winner) :=
  C5_result_invariants (4/5) Mode.sales 0 demoOutcomes2 2
    ⟨"a", 7/10, 2, Mode.sales, 0, demoMetrics⟩ rfl
    (by norm_num [orchestrate, runLoop, demoOutcomes2, bestRecord,
      betterRecord])

/-- C6: when the vector provider is unreachable (or returns zero rows),
`retrieve` still returns at least one exemplar, and the pipeline can fail as
a whole only when every generation attempt failed — never solely because of
retrieval. -/
theorem C6_retrieval_fallback (mode : Mode)
    (generate : List Exemplar → List GenOutcome) (threshold : ℚ) (t : ℕ) :
    1 ≤ (retrieve none mode).length ∧
      1 ≤ (retrieve (some []) mode).length ∧
      (runPipeline none mode generate threshold t = none →
        ∀ o ∈ generate (fallbackExemplars mode), o = none) := by
  refine ⟨?_, ?_, ?_⟩
  · cases mode <;> simp [retrieve, fallbackExemplars]
  · cases mode <;> simp [retrieve, fallbackExemplars]
  · intro h
    unfold runPipeline orchestrate at h
    have hret : retrieve none mode = fallbackExemplars mode := rfl
    rw [hret] at h
    cases hrun : runLoop threshold (generate (fallbackExemplars mode)) 1 [] with
    | ok records winner => rw [hrun] at h; exact absurd h (by simp)
    | pipelineError =>
      exact (runLoop_pipelineError threshold _ 1 [] hrun).2

/-- Witness for C6 with a provider that always fails and a generator whose
single attempt also fails. -/
theorem C6_retrieval_fallback_witness :
    1 ≤ (retrieve none Mode.sales).length ∧
      1 ≤ (retrieve (some []) Mode.sales).length ∧
      ∀ o ∈ (fun _ : List Exemplar => ([none] : List GenOutcome))
          (fallbackExemplars Mode.sales), o = none :=
  ⟨(C6_retrieval_fallback Mode.sales (fun _ => [none]) (4/5) 0).1,
   (C6_retrieval_fallback Mode.sales (fun _ => [none]) (4/5) 0).2.1,
   (C6_retrieval_fallback Mode.sales (fun _ => [none]) (4/5) 0).2.2 rfl⟩

/-- C7: the upward response carries exactly the six result fields and the
five metrics fields (two records agreeing on them are equal, so there are no
others), and the UI components bind each of them by name. -/
theorem C7_response_shape :
    (∀ a b : TransformResult,
        a.output_text = b.output_text → a.quality_score = b.quality_score →
        a.iterations = b.iterations → a.mode = b.mode →
        a.processing_time_ms = b.processing_time_ms → a.metrics = b.metrics →
        a = b) ∧
      (∀ a b : QualityMetrics,
        a.burstiness = b.burstiness →
        a.lexical_diversity = b.lexical_diversity →
        a.contraction_ratio = b.contraction_ratio →
        a.word_count = b.word_count → a.sentence_count = b.sentence_count →
        a = b) ∧
      (∀ m : QualityMetrics, (metricItems m).map (fun it => it.value)
        = [m.burstiness, m.lexical_diversity, m.contraction_ratio]) ∧
      (∀ m : QualityMetrics,
        metricsDisplayStats m = (m.word_count, m.sentence_count)) ∧
      (∀ r : TransformResult, outputDisplayText r = r.output_text ∧
        outputDisplayHeader r
          = (r.quality_score, r.iterations, r.processing_time_ms, r.mode)) := by
  refine ⟨?_, ?_, ?_, ?_, ?_⟩
  · intro a b h1 h2 h3 h4 h5 h6
    cases a; cases b
    simp_all
  · intro a b h1 h2 h3 h4 h5
    cases a; cases b
    simp_all
  · intro m
    rfl
  · intro m
    rfl
  · intro r
    exact ⟨rfl, rfl⟩

/-- Witness for C7: the extensionality clauses applied at a concrete
response. -/
theorem C7_response_shape_witness :
    (⟨"out", 7/10, 1, Mode.sales, 5, demoMetrics⟩ : TransformResult)
      = ⟨"out", 7/10, 1, Mode.sales, 5, demoMetrics⟩ :=
  C7_response_shape.1 _ _ rfl rfl rfl rfl rfl rfl

end Humaniser
